import Mathlib

/-!
# Verification of the yay-filter core against its specification

Shallow embedding of the repository's core modules:

* `src/util/CircularBuffer.ts`  — fixed-size circular buffer
* `src/lang/LanguageDetector.ts`— bounded classification cache
* `src/model/Settings.ts`       — filter settings / decision engine
* `src/model/CommentInfo.ts`    — per-comment generation-guarded pipeline

JavaScript values are modelled as follows: numbers used as 32-bit hashes
are `Int` with explicit wrapping, percentages/thresholds are `Rat`
(JSON numbers; all comparisons in the source are order comparisons),
`Set<string>` is `Finset String` (deep equality of JS sets is
order-insensitive set equality), arrays are `List`, `undefined`
parameters are `Option`, and a thrown exception is an `Except` error.
-/

namespace YayFilter

/-! ## JS primitives -/

/-- Truncated remainder, JavaScript's `%` on integers. -/
def jsMod (a b : Int) : Int := Int.tmod a b

/-- Wrap an integer into the signed 32-bit range, JavaScript's `| 0`. -/
def toInt32 (n : Int) : Int := (n + 2 ^ 31) % 2 ^ 32 - 2 ^ 31

/-- `Math.imul`: 32-bit wrapping multiplication. -/
def jsImul (a b : Int) : Int := toInt32 (a * b)

/-- Decidable equality for `Except` values, used to evaluate embedded
operations on concrete inputs. -/
instance {ε α : Type} [DecidableEq ε] [DecidableEq α] :
    DecidableEq (Except ε α) := fun x y =>
  match x, y with
  | .error a, .error b =>
      if h : a = b then .isTrue (by rw [h])
      else .isFalse (fun hc => h (Except.error.inj hc))
  | .error _, .ok _ => .isFalse (fun hc => Except.noConfusion hc)
  | .ok _, .error _ => .isFalse (fun hc => Except.noConfusion hc)
  | .ok a, .ok b =>
      if h : a = b then .isTrue (by rw [h])
      else .isFalse (fun hc => h (Except.ok.inj hc))

/-- Auxiliary loop of `ArrayUtil.distinct` (`src/util/ArrayUtil.ts`):
`seen` is the set of elements already emitted. -/
def distinctAux {α : Type} [DecidableEq α] : List α → List α → List α
  | _, [] => []
  | seen, x :: rest =>
      if x ∈ seen then distinctAux seen rest
      else x :: distinctAux (x :: seen) rest

/-- `ArrayUtil.distinct`: keep the first occurrence of each element,
preserving input order. -/
def distinct {α : Type} [DecidableEq α] (xs : List α) : List α :=
  distinctAux [] xs

/-! ## CircularBuffer (`src/util/CircularBuffer.ts`)

The JS class keeps a growable backing array `data`, a read position
`index` and a size `sz`.  `push` appends to the backing array while it
is still shorter than `capacity`, and otherwise overwrites the slot
`(index + sz) % capacity`.  A push on a full buffer throws
`'capacity exceeded'`.  `clear` only resets `sz`. -/

structure CircularBuffer (α : Type) where
  capacity : Nat
  data : List α
  index : Nat
  sz : Nat
  deriving Repr, DecidableEq

namespace CircularBuffer

/-- `new CircularBuffer(capacity)` -/
def empty (α : Type) (capacity : Nat) : CircularBuffer α :=
  { capacity := capacity, data := [], index := 0, sz := 0 }

/-- `push`: throws `'capacity exceeded'` when already full. -/
def push {α : Type} (b : CircularBuffer α) (element : α) :
    Except String (CircularBuffer α) :=
  if b.sz = b.capacity then .error "capacity exceeded"
  else
    let data :=
      if b.data.length < b.capacity then b.data ++ [element]
      else b.data.set ((b.index + b.sz) % b.capacity) element
    .ok { b with data := data, sz := b.sz + 1 }

/-- `pop`: returns `undefined` (`none`) when empty, else the element at
`index` (reading out of the backing array's range also yields
`undefined`, as in JS). -/
def pop {α : Type} (b : CircularBuffer α) : Option α × CircularBuffer α :=
  if b.sz = 0 then (none, b)
  else (b.data.get? b.index,
        { b with sz := b.sz - 1, index := (b.index + 1) % b.capacity })

/-- `clear`: only resets the size; `data` and `index` are kept. -/
def clear {α : Type} (b : CircularBuffer α) : CircularBuffer α :=
  { b with sz := 0 }

/-- `size` -/
def size {α : Type} (b : CircularBuffer α) : Nat := b.sz

end CircularBuffer

/-- One buffer operation, for describing test traces. -/
inductive BufOp (α : Type) where
  | push (x : α)
  | pop
  | clear
  deriving Repr, DecidableEq

/-- Run a trace of operations, collecting the values returned by the
`pop` calls (in order).  A throwing `push` aborts the trace. -/
def runBufOps {α : Type} (b : CircularBuffer α) :
    List (BufOp α) → Except String (CircularBuffer α × List (Option α))
  | [] => .ok (b, [])
  | BufOp.push x :: rest =>
      match b.push x with
      | .error e => .error e
      | .ok b' => runBufOps b' rest
  | BufOp.pop :: rest =>
      let (v, b') := b.pop
      match runBufOps b' rest with
      | .error e => .error e
      | .ok (bf, vs) => .ok (bf, v :: vs)
  | BufOp.clear :: rest => runBufOps b.clear rest

/-! ## LanguageDetector (`src/lang/LanguageDetector.ts`)

The detector memoizes classification results, keyed by a 32-bit hash of
the text.  The cache is a JS `Map<number, LanguageDetectorResult>`
(modelled as an insertion-ordered association list with unique keys)
plus a `CircularBuffer` of keys recording insertion order.  The actual
classification is performed externally (`chrome.runtime.sendMessage`);
it is passed in as the function `oracle`. -/

/-- Entry of the language detector result. -/
structure LanguageDetectorResultEntry where
  language : String
  percentage : Rat
  deriving Repr, DecidableEq

/-- Language detector result. -/
structure LanguageDetectorResult where
  isReliable : Bool
  languages : List LanguageDetectorResultEntry
  deriving Repr, DecidableEq

/-- `LanguageDetector#hashCode`: left fold
`(s, c) ↦ (Math.imul(31, s) + c.charCodeAt(0)) | 0` over the text's
code units (for the inputs treated here all characters are in the BMP,
where a UTF-16 code unit is the code point). -/
def hashCode (text : String) : Int :=
  text.data.foldl (fun s c => toInt32 (jsImul 31 s + (c.toNat : Int))) 0

/-- `Map.get` -/
def mapGet {β : Type} (m : List (Int × β)) (k : Int) : Option β :=
  (m.find? (fun p => p.1 = k)).map (·.2)

/-- `Map.set`: update in place if the key exists, else append. -/
def mapSet {β : Type} (m : List (Int × β)) (k : Int) (v : β) : List (Int × β) :=
  if m.any (fun p => p.1 = k) then
    m.map (fun p => if p.1 = k then (k, v) else p)
  else m ++ [(k, v)]

/-- `Map.delete` -/
def mapDelete {β : Type} (m : List (Int × β)) (k : Int) : List (Int × β) :=
  m.filter (fun p => ¬ p.1 = k)

structure LanguageDetector where
  cache : List (Int × LanguageDetectorResult)
  entries : CircularBuffer Int
  maxCacheSize : Nat
  deriving Repr, DecidableEq

namespace LanguageDetector

/-- `new LanguageDetector(maxCacheSize)` -/
def init (maxCacheSize : Nat) : LanguageDetector :=
  { cache := [], entries := CircularBuffer.empty Int maxCacheSize,
    maxCacheSize := maxCacheSize }

/-- `detectLanguage`: on a cache hit return the cached result; on a miss
obtain the result from the external oracle, evict the oldest key when the
queue is at capacity, store the result and record the key.  The push on a
full queue would throw, which surfaces as `.error`. -/
def detectLanguage (d : LanguageDetector) (text : String)
    (oracle : String → LanguageDetectorResult) :
    Except String (LanguageDetectorResult × LanguageDetector) :=
  let hash := hashCode text
  match mapGet d.cache hash with
  | some result => .ok (result, d)
  | none =>
      let r := oracle text
      -- callback body (lines 52-57 of the source)
      let d1 : LanguageDetector :=
        if d.entries.size = d.maxCacheSize then
          let (oldKey, e') := d.entries.pop
          { d with
            cache := match oldKey with
              | some k => mapDelete d.cache k
              | none => d.cache,
            entries := e' }
        else d
      let cache2 := mapSet d1.cache hash r
      match d1.entries.push hash with
      | .error e => .error e
      | .ok e2 => .ok (r, { d1 with cache := cache2, entries := e2 })

/-- `clearCache` -/
def clearCache (d : LanguageDetector) : LanguageDetector :=
  { d with cache := [], entries := d.entries.clear }

/-- `getCacheSize` -/
def getCacheSize (d : LanguageDetector) : Nat := d.cache.length

/-- Run `detectLanguage` over a list of texts in order, discarding the
returned results. -/
def runDetect (d : LanguageDetector)
    (oracle : String → LanguageDetectorResult) :
    List String → Except String LanguageDetector
  | [] => .ok d
  | t :: rest =>
      match d.detectLanguage t oracle with
      | .error e => .error e
      | .ok (_, d') => runDetect d' oracle rest

end LanguageDetector

/-! ## Settings (`src/model/Settings.ts`)

`Set<string>` fields are modelled as `Finset String`: the source only
ever tests membership, takes the size, and compares as sets, and the
deep equality used by the spec's round-trip property treats JS sets as
order-insensitive.  The compiled `RegExp[]` cache is modelled by the
list of pattern sources it was compiled from (all patterns carry the
same flag `'i'`). -/

namespace Config

/-- `Config.settings.defaultPercentageThreshould`.  `Config.ts` is not
included under `src/`; the value 20 is fixed by the repository's unit
tests (`Settings.test.ts` expects `"pt":20` for default construction). -/
def defaultPercentageThreshould : Rat := 20

end Config

/-- JS `\s` whitespace (ASCII part; the source's inputs are handled
identically). -/
def isWs (c : Char) : Bool :=
  c = ' ' ∨ c = '\t' ∨ c = '\n' ∨ c = '\r' ∨ c = '\x0b' ∨ c = '\x0c'

/-- `replace(/\s+/g, ' ')`: collapse each maximal whitespace run into a
single space. -/
def squashWs : List Char → List Char
  | [] => []
  | [c] => [if isWs c then ' ' else c]
  | c1 :: c2 :: rest =>
      if isWs c1 && isWs c2 then squashWs (c2 :: rest)
      else (if isWs c1 then ' ' else c1) :: squashWs (c2 :: rest)

/-- `trim()` -/
def jsTrim (l : List Char) : List Char :=
  ((l.dropWhile isWs).reverse.dropWhile isWs).reverse

/-- `s.replace(/\s+/g, ' ').trim()` -/
def normalizeWord (s : String) : String :=
  String.mk (jsTrim (squashWs s.data))

/-- `toLocaleLowerCase()` (the inputs considered are ASCII, where the
locale-sensitive and the plain lowercase agree). -/
def jsToLower (s : String) : String :=
  String.mk (s.data.map Char.toLower)

/-- `t.includes(w)` -/
def jsIncludes (hay needle : String) : Bool :=
  decide (needle.data <:+: hay.data)

namespace SetUtil

/-- `SetUtil.equals` (`src/util/SetUtil.ts`):
`a.size === b.size && [...a].every((x) => b.has(x))`. -/
def equals (a b : Finset String) : Bool :=
  decide (a.card = b.card ∧ a ⊆ b)

end SetUtil

structure Settings where
  enabledDefault : Bool
  showFilterButton : Bool
  filterByLanguage : Bool
  blockSelectedLanguages : Bool
  selectedLanguages : Finset String
  listedLanguages : List String
  percentageThreshold : Rat
  selectUnknownLanguage : Bool
  filterByWord : Bool
  blockedWords : List String
  regularExpressionEnabled : Bool
  filterReplies : Bool
  regExp : List String
  deriving DecidableEq

namespace Settings

/-- `getPreferredLanguages`, applied to the browser's
`navigator.languages` (passed in as a parameter). -/
def getPreferredLanguages (navLanguages : List String) : List String :=
  distinct ((navLanguages.map
      (fun l => String.mk ((l.data.take 2).map Char.toLower))).filter
    (fun l2 => decide (l2.length = 2)))

/-- The constructor.  `Option` models an `undefined` argument;
`navLanguages` stands for `navigator.languages`, read only when
`selectedLanguages` is `undefined`. -/
def make
    (enabledDefault : Option Bool)
    (showFilterButton : Option Bool)
    (filterByLanguage : Option Bool)
    (blockSelectedLanguages : Option Bool)
    (selectedLanguages : Option (List String))
    (selectUnknownLanguage : Option Bool)
    (listedLanguages : Option (List String))
    (percentageThreshold : Option Rat)
    (filterByWord : Option Bool)
    (excludeWords : Option (List String))
    (regularExpressionEnabled : Option Bool)
    (filterReplies : Option Bool)
    (navLanguages : List String) : Settings :=
  let languages : List String :=
    match selectedLanguages with
    | none => getPreferredLanguages navLanguages
    | some sel => distinct sel
  let listed : List String :=
    match listedLanguages with
    | none => languages
      -- `[...this.selectedLanguages]` iterates the set in insertion
      -- order, which is exactly `languages`
    | some ll =>
        -- prepend selected languages that are not in the list
        languages.filter (fun s => !(ll.contains s)) ++ distinct ll
  let bw : List String := excludeWords.getD []
  let re : Bool := regularExpressionEnabled.getD false
  { enabledDefault := enabledDefault.getD true
    showFilterButton := showFilterButton.getD true
    filterByLanguage := filterByLanguage.getD true
    blockSelectedLanguages := blockSelectedLanguages.getD false
    selectedLanguages := languages.toFinset
    listedLanguages := listed
    percentageThreshold :=
      percentageThreshold.getD Config.defaultPercentageThreshould
    selectUnknownLanguage := selectUnknownLanguage.getD false
    filterByWord := filterByWord.getD true
    blockedWords := bw
    regularExpressionEnabled := re
    filterReplies := filterReplies.getD false
    -- `this.regExp = []; this.cacheRegExp();`
    regExp := if re then bw else [] }

/-- `cacheRegExp`: recompile the pattern cache only when regular
expressions are enabled (otherwise the old cache is left in place). -/
def cacheRegExp (s : Settings) : Settings :=
  if s.regularExpressionEnabled then { s with regExp := s.blockedWords } else s

/-- `toJSON` produces this keyed record (`JSON.stringify` of it). -/
structure JSONRecord where
  ed : Bool
  ef : Bool
  el : Bool
  bl : Bool
  il : List String
  iu : Bool
  ll : List String
  pt : Rat
  ew : Bool
  bw : List String
  re : Bool
  fr : Bool
  deriving Repr, DecidableEq

/-- `toJSON` -/
def toJSON (s : Settings) : JSONRecord :=
  { ed := s.enabledDefault
    ef := s.showFilterButton
    el := s.filterByLanguage
    bl := s.blockSelectedLanguages
    il := s.listedLanguages.filter (fun x => decide (x ∈ s.selectedLanguages))
    iu := s.selectUnknownLanguage
    ll := s.listedLanguages
    pt := s.percentageThreshold
    ew := s.filterByWord
    bw := s.blockedWords
    re := s.regularExpressionEnabled
    fr := s.filterReplies }

/-- `loadFromJSON` on a record with all fields present (which is what
`toJSON` emits). -/
def loadFromJSON (j : JSONRecord) (navLanguages : List String) : Settings :=
  make (some j.ed) (some j.ef) (some j.el) (some j.bl) (some j.il)
    (some j.iu) (some j.ll) (some j.pt) (some j.ew) (some j.bw)
    (some j.re) (some j.fr) navLanguages

/-! Setters -/

def setEnabledDefault (s : Settings) (enabled : Bool) : Settings :=
  { s with enabledDefault := enabled }

def setFilterButtonVisible (s : Settings) (visible : Bool) : Settings :=
  { s with showFilterButton := visible }

def setLanguageFilterEnabled (s : Settings) (enabled : Bool) : Settings :=
  { s with filterByLanguage := enabled }

def setLanguageBlockList (s : Settings) (isBlockList : Bool) : Settings :=
  { s with blockSelectedLanguages := isBlockList }

/-- `setSelectedLanguage`: throws when the language is not listed. -/
def setSelectedLanguage (s : Settings) (language : String) (value : Bool) :
    Except String Settings :=
  if !(s.listedLanguages.contains language) then .error "language is not listed"
  else if value then .ok { s with selectedLanguages := insert language s.selectedLanguages }
  else .ok { s with selectedLanguages := s.selectedLanguages.erase language }

def setSelectUnknown (s : Settings) (value : Bool) : Settings :=
  { s with selectUnknownLanguage := value }

def addListedLanguage (s : Settings) (language : String) (incl : Bool) : Settings :=
  if s.listedLanguages.contains language then s
  else
    { s with
      listedLanguages := s.listedLanguages ++ [language]
      selectedLanguages :=
        if incl then insert language s.selectedLanguages else s.selectedLanguages }

def removeListedLanguage (s : Settings) (language : String) : Settings :=
  { s with
    selectedLanguages := s.selectedLanguages.erase language
    -- `ArrayUtil.remove` deletes the first occurrence
    listedLanguages := s.listedLanguages.erase language }

def setPercentageThreshold (s : Settings) (value : Rat) : Settings :=
  { s with percentageThreshold := max 0 (min 100 value) }

def setWordFilterEnabled (s : Settings) (enabled : Bool) : Settings :=
  { s with filterByWord := enabled }

def setBlockedWords (s : Settings) (words : List String) : Settings :=
  let cleaned := (words.map normalizeWord).filter (fun w => !(w = ""))
  cacheRegExp { s with blockedWords := cleaned }

def setRegularExpression (s : Settings) (enabled : Bool) : Settings :=
  cacheRegExp { s with regularExpressionEnabled := enabled }

def setFilterReplies (s : Settings) (value : Bool) : Settings :=
  { s with filterReplies := value }

def getFilterReplies (s : Settings) : Bool := s.filterReplies

/-! Filtering logic -/

/-- `lang.charAt(2) == '-' ? lang.substring(0, 2) : lang` -/
def primaryCode (lang : String) : String :=
  if lang.data.get? 2 = some '-' then String.mk (lang.data.take 2) else lang

/-- `matchByLanguage`.  The source's shortcut
`if (this.selectedLanguages.size == 0 && !this.selectedLanguages) return true;`
negates a `Set` object in its second conjunct; a JS object is always
truthy, so that conjunct is constantly false and the shortcut can never
fire — it is embedded as written, with the dead conjunct as `False`. -/
def matchByLanguage (s : Settings) (detectedLanguages : LanguageDetectorResult) : Bool :=
  if s.selectedLanguages.card = 0 ∧ False then true
  else
    let filtered := (detectedLanguages.languages.filter
        (fun lang => decide (s.percentageThreshold ≤ lang.percentage))).map
      (fun lang => lang.language)
    if filtered.length = 0 then !s.selectUnknownLanguage
    else
      !(filtered.any (fun lang =>
        if lang == "und" && s.selectUnknownLanguage then true
        else decide (primaryCode lang ∈ s.selectedLanguages)))

/-- `shouldFilterByLanguage` -/
def shouldFilterByLanguage (s : Settings) (detectedLanguages : LanguageDetectorResult) : Bool :=
  if !s.filterByLanguage then false
  else if s.matchByLanguage detectedLanguages then !s.blockSelectedLanguages
  else s.blockSelectedLanguages

/-- `shouldFilterByWord`; `rx pattern text` stands for the host's
case-insensitive regex test `text.match(new RegExp(pattern, 'i'))`. -/
def shouldFilterByWord (rx : String → String → Bool) (s : Settings) (text : String) : Bool :=
  if !s.filterByWord then false
  else if s.regularExpressionEnabled then s.regExp.any (fun r => rx r text)
  else
    let t := jsToLower text
    s.blockedWords.any (fun w => jsIncludes t (jsToLower w))

/-- `shouldRefreshFilter` (receiver `s` is the new settings, argument
the old ones). -/
def shouldRefreshFilter (s oldSettings : Settings) : Bool :=
  if !(SetUtil.equals oldSettings.selectedLanguages s.selectedLanguages) then true
  else if oldSettings.filterByLanguage ≠ s.filterByLanguage then true
  else if oldSettings.blockSelectedLanguages ≠ s.blockSelectedLanguages then true
  else if oldSettings.selectUnknownLanguage ≠ s.selectUnknownLanguage then true
  else if oldSettings.percentageThreshold ≠ s.percentageThreshold then true
  else if oldSettings.filterByWord ≠ s.filterByWord then true
  else if oldSettings.regularExpressionEnabled ≠ s.regularExpressionEnabled then true
  else if !(SetUtil.equals oldSettings.blockedWords.toFinset s.blockedWords.toFinset) then true
  else if oldSettings.filterReplies ≠ s.filterReplies then true
  else false

end Settings

/-! ## CommentInfo (`src/model/CommentInfo.ts`)

One comment's pipeline `refreshAll` is the promise chain
`fetchText → detectLanguage → saveLanguage → applyFilter`, each step
re-validating its ticket with `verifyAge`; an `OutdatedRequestError`
is caught at the outer boundary and resolves the call to `false`.
The chain is embedded as a small-step machine over an explicit phase so
that the suspension points (the oracle call, and the 300 ms settle delay
inside `applyFilter`) can be interleaved with competing calls.

External inputs are parameters: `domText` is what
`DomManager.fetchTextContent` returns, `oracleResult` what the
classification oracle resolves with, and `rx` the host regex engine.
The observable actions are recorded as events. -/

structure AppContext where
  enabled : Bool
  settings : Settings
  deriving DecidableEq

/-- Mutable per-comment state (fields of the `CommentInfo` class plus
the anchor's `style.display`). -/
structure CommentState where
  age : Int
  waited : Bool
  text : String
  detectedLanguage : Option LanguageDetectorResult
  display : String
  deriving DecidableEq

namespace CommentInfo

/-- Field initializers of the class. -/
def initState : CommentState :=
  { age := 0, waited := false, text := "",
    detectedLanguage := none, display := "" }

/-- `verifyAge`: throws `OutdatedRequestError(age, this.age)` when the
ticket is stale. -/
def verifyAge (s : CommentState) (age : Int) : Except (Int × Int) Unit :=
  if age ≠ s.age then .error (age, s.age) else .ok ()

/-- `incrementAge`: `this.age = (this.age + 1) % 1000000000`. -/
def incrementAge (s : CommentState) : Int × CommentState :=
  let a := jsMod (s.age + 1) 1000000000
  (a, { s with age := a })

/-- `destroy`: set the generation to the sentinel `-1`. -/
def destroy (s : CommentState) : CommentState := { s with age := -1 }

/-- `shouldFilter` -/
def shouldFilter (ctx : AppContext) (rx : String → String → Bool)
    (isReply : Bool) (s : CommentState) : Bool :=
  match s.detectedLanguage with
  | none => false
  | some d =>
      if !ctx.enabled then false
      else if isReply && !ctx.settings.getFilterReplies then false
      else ctx.settings.shouldFilterByLanguage d
        || Settings.shouldFilterByWord rx ctx.settings s.text

/-- Observable actions of a pipeline run. -/
inductive CEvent where
  | fetchText
  | oracleCall
  | domSet (value : String)
  deriving Repr, DecidableEq

/-- Phase of a `refreshAll` run.  `delayWait` is the suspension inside
`applyFilter` while `PromiseUtil.delay(300)` is pending. -/
inductive Phase where
  | start
  | fetch (ticket : Int)
  | detect (ticket : Int)
  | save (ticket : Int)
  | apply (ticket : Int)
  | delayWait (ticket : Int)
  | done (result : Bool)
  deriving Repr, DecidableEq

/-- One step of the pipeline on the shared comment state. -/
def step (ctx : AppContext) (rx : String → String → Bool) (isReply : Bool)
    (domText : String) (oracleResult : LanguageDetectorResult) :
    Phase × CommentState × List CEvent → Phase × CommentState × List CEvent
  | (.start, s, ev) =>
      -- `refreshAll` line 68: `if (this.age < 0) return Promise.resolve(false);`
      if s.age < 0 then (.done false, s, ev)
      else
        let (t, s') := incrementAge s
        (.fetch t, s', ev)
  | (.fetch t, s, ev) =>
      match verifyAge s t with
      | .error _ => (.done false, s, ev)  -- caught: resolves to false
      | .ok _ =>
          let ev' := ev ++ [CEvent.fetchText]
          if domText ≠ s.text then
            (.detect t,
             { s with waited := false, detectedLanguage := none, text := domText },
             ev')
          else (.detect t, s, ev')
  | (.detect t, s, ev) =>
      match verifyAge s t with
      | .error _ => (.done false, s, ev)
      | .ok _ => (.save t, s, ev ++ [CEvent.oracleCall])
  | (.save t, s, ev) =>
      match verifyAge s t with
      | .error _ => (.done false, s, ev)
      | .ok _ => (.apply t, { s with detectedLanguage := some oracleResult }, ev)
  | (.apply t, s, ev) =>
      match verifyAge s t with
      | .error _ => (.done false, s, ev)
      | .ok _ =>
          -- line 160 tests `this.detectLanguage == null`: that is the
          -- *method* `detectLanguage`, never null, so the early return
          -- is dead code and execution always continues here.
          let filtered := s.display == "none"
          let sf := shouldFilter ctx rx isReply s
          if filtered ≠ sf then
            if sf then
              if !s.waited then (.delayWait t, s, ev)
              else (.done sf, { s with display := "none" }, ev ++ [CEvent.domSet "none"])
            else (.done sf, { s with display := "" }, ev ++ [CEvent.domSet ""])
          else (.done sf, s, ev)
  | (.delayWait _, s, ev) =>
      -- the delayed continuation (lines 170-175): sets
      -- `display = 'none'`, `waited = true` and resolves `true`.
      -- There is no `verifyAge` on this path in the source.
      (.done true, { s with display := "none", waited := true },
       ev ++ [CEvent.domSet "none"])
  | (.done b, s, ev) => (.done b, s, ev)

/-- `refreshAll` run to completion without interference (six steps
always reach `done`, which is absorbing). -/
def runRefreshAll (ctx : AppContext) (rx : String → String → Bool)
    (isReply : Bool) (domText : String)
    (oracleResult : LanguageDetectorResult) (s : CommentState) :
    Bool × CommentState × List CEvent :=
  match (step ctx rx isReply domText oracleResult)^[6] (.start, s, []) with
  | (.done b, s', ev) => (b, s', ev)
  | (_, s', ev) => (false, s', ev)

/-- `refreshFilter`: guard on the destroyed sentinel, then run only
`applyFilter` with the *current* age (no new ticket).  The fetch/oracle
parameters of `step` are not consulted on this path. -/
def runRefreshFilter (ctx : AppContext) (rx : String → String → Bool)
    (isReply : Bool) (s : CommentState) :
    Bool × CommentState × List CEvent :=
  if s.age < 0 then (false, s, [])
  else
    match (step ctx rx isReply "" { isReliable := false, languages := [] })^[2]
        (.apply s.age, s, []) with
    | (.done b, s', ev) => (b, s', ev)
    | (_, s', ev) => (false, s', ev)

end CommentInfo

/-! ## Reachable states -/

/-- `copy()`: rebuild through the constructor from the current fields
(the spread `[...this.selectedLanguages]` passes the set's elements; the
constructor only uses them as a set and for ordering `listedLanguages`,
which is passed explicitly, so the iteration order is immaterial — here
the elements are enumerated in sorted order). -/
def Settings.copy (s : Settings) : Settings :=
  Settings.make (some s.enabledDefault) (some s.showFilterButton)
    (some s.filterByLanguage) (some s.blockSelectedLanguages)
    (some (s.selectedLanguages.sort (· ≤ ·))) (some s.selectUnknownLanguage)
    (some s.listedLanguages) (some s.percentageThreshold)
    (some s.filterByWord) (some s.blockedWords)
    (some s.regularExpressionEnabled) (some s.filterReplies) []

/-- Settings values reachable through the public constructor and the
setter API. -/
inductive Reachable : Settings → Prop where
  | make (a b c d : Option Bool) (sel : Option (List String)) (u : Option Bool)
      (ll : Option (List String)) (pt : Option Rat) (w : Option Bool)
      (bw : Option (List String)) (re fr : Option Bool) (nav : List String) :
      Reachable (Settings.make a b c d sel u ll pt w bw re fr nav)
  | copy {s : Settings} : Reachable s → Reachable s.copy
  | setEnabledDefault {s : Settings} (b : Bool) :
      Reachable s → Reachable (s.setEnabledDefault b)
  | setFilterButtonVisible {s : Settings} (b : Bool) :
      Reachable s → Reachable (s.setFilterButtonVisible b)
  | setLanguageFilterEnabled {s : Settings} (b : Bool) :
      Reachable s → Reachable (s.setLanguageFilterEnabled b)
  | setLanguageBlockList {s : Settings} (b : Bool) :
      Reachable s → Reachable (s.setLanguageBlockList b)
  | setSelectedLanguage {s s' : Settings} {l : String} {v : Bool} :
      Reachable s → s.setSelectedLanguage l v = .ok s' → Reachable s'
  | setSelectUnknown {s : Settings} (b : Bool) :
      Reachable s → Reachable (s.setSelectUnknown b)
  | addListedLanguage {s : Settings} (l : String) (i : Bool) :
      Reachable s → Reachable (s.addListedLanguage l i)
  | removeListedLanguage {s : Settings} (l : String) :
      Reachable s → Reachable (s.removeListedLanguage l)
  | setPercentageThreshold {s : Settings} (v : Rat) :
      Reachable s → Reachable (s.setPercentageThreshold v)
  | setWordFilterEnabled {s : Settings} (b : Bool) :
      Reachable s → Reachable (s.setWordFilterEnabled b)
  | setBlockedWords {s : Settings} (ws : List String) :
      Reachable s → Reachable (s.setBlockedWords ws)
  | setRegularExpression {s : Settings} (b : Bool) :
      Reachable s → Reachable (s.setRegularExpression b)
  | setFilterReplies {s : Settings} (b : Bool) :
      Reachable s → Reachable (s.setFilterReplies b)

/-- Detector states reachable from `new LanguageDetector(N)` through
`detectLanguage` and `clearCache`. -/
inductive DetectorReachable (N : Nat) : LanguageDetector → Prop where
  | init : DetectorReachable N (LanguageDetector.init N)
  | detect {d : LanguageDetector} {t : String}
      {oracle : String → LanguageDetectorResult}
      {r : LanguageDetectorResult} {d' : LanguageDetector} :
      DetectorReachable N d → d.detectLanguage t oracle = .ok (r, d') →
      DetectorReachable N d'
  | clear {d : LanguageDetector} :
      DetectorReachable N d → DetectorReachable N d.clearCache

/-! ## Proof-side runners and canonical states -/

/-- The detector state after the first `k ≤ N` distinct-hash misses:
association list and queue both hold the keys in insertion order. -/
def canonDetector (N : Nat) (oracle : String → LanguageDetectorResult)
    (ts : List String) : LanguageDetector :=
  { cache := ts.map (fun t => (hashCode t, oracle t)),
    entries := { capacity := N, data := ts.map hashCode, index := 0,
                 sz := ts.length },
    maxCacheSize := N }

/-- Push a batch of elements in order. -/
def pushAll {α : Type} (b : CircularBuffer α) :
    List α → Except String (CircularBuffer α)
  | [] => .ok b
  | x :: rest =>
      match b.push x with
      | .error e => .error e
      | .ok b' => pushAll b' rest

/-- Pop `n` times, collecting the returned values in order. -/
def popN {α : Type} (b : CircularBuffer α) :
    Nat → List (Option α) × CircularBuffer α
  | 0 => ([], b)
  | n + 1 =>
      let (v, b') := b.pop
      let (vs, bf) := popN b' n
      (v :: vs, bf)

/-- Ring-buffer representation invariant relating a buffer whose backing
array has grown to full capacity with the queue of values it holds, in
pop order. -/
def RingRep {α : Type} (b : CircularBuffer α) (q : List α) : Prop :=
  b.data.length = b.capacity ∧ b.index < b.capacity ∧
  b.sz = q.length ∧ q.length ≤ b.capacity ∧
  ∀ j : Nat, j < q.length →
    b.data.get? ((b.index + j) % b.capacity) = q.get? j

/-! ## Concrete instances used by the closed theorems -/

/-- Settings of the spec's `shouldFilterByLanguage` example:
language filter on, allow-mode, `selectedLanguages={en}`,
`percentageThreshold=50`, `selectUnknown=false`. -/
def exSettingsC7 : Settings :=
  Settings.make (some true) (some true) (some true) (some false)
    (some ["en"]) (some false) (some ["en"]) (some 50) (some true)
    (some []) (some false) (some false) []

/-- Classification `[{en,49},{de,49},{ja,2}]`. -/
def exResultUnknown : LanguageDetectorResult :=
  { isReliable := false,
    languages := [⟨"en", 49⟩, ⟨"de", 49⟩, ⟨"ja", 2⟩] }

/-- Classification `[{en-US,50},{de,48},{ja,2}]`. -/
def exResultEnUS : LanguageDetectorResult :=
  { isReliable := false,
    languages := [⟨"en-US", 50⟩, ⟨"de", 48⟩, ⟨"ja", 2⟩] }

/-- A baseline settings value for the diff examples: blockedWords
`["a", "b"]`, threshold 20. -/
def exSettingsBase : Settings :=
  Settings.make (some true) (some true) (some true) (some false)
    (some ["en"]) (some false) (some ["en"]) (some 20) (some true)
    (some ["a", "b"]) (some false) (some false) []

/-- `exSettingsBase` with a different percentage threshold. -/
def exSettingsPt : Settings :=
  Settings.make (some true) (some true) (some true) (some false)
    (some ["en"]) (some false) (some ["en"]) (some 30) (some true)
    (some ["a", "b"]) (some false) (some false) []

/-- App context for the pipeline traces: filtering enabled, allow-mode
with only `en` selected, word filter off. -/
def exCtx : AppContext :=
  { enabled := true,
    settings := Settings.make (some true) (some true) (some true)
      (some false) (some ["en"]) (some false) (some ["en"]) (some 20)
      (some false) (some []) (some false) (some false) [] }

/-- Regex engine stub for traces in which the word filter is disabled
(it is never consulted there). -/
def exRx : String → String → Bool := fun _ _ => false

/-- Oracle answer `[{ja,95}]`, which the `exCtx` settings filter. -/
def exOracleJa : LanguageDetectorResult :=
  { isReliable := true, languages := [⟨"ja", 95⟩] }

/-- Step function of the example pipeline traces: context `exCtx`, a
main (non-reply) comment, fetched text `"hello"`, oracle answer
`exOracleJa`. -/
def exStep :
    CommentInfo.Phase × CommentState × List CommentInfo.CEvent →
    CommentInfo.Phase × CommentState × List CommentInfo.CEvent :=
  CommentInfo.step exCtx exRx false "hello" exOracleJa

/-- The example pipeline (ticket 1) run five steps from a fresh state:
start → fetch → detect → save → applyFilter, ending suspended in the
settle delay. -/
def exPipeA : CommentInfo.Phase × CommentState × List CommentInfo.CEvent :=
  exStep^[5] (CommentInfo.Phase.start, CommentInfo.initState, [])

/-- A second `refreshAll` begins while the first pipeline is suspended:
its start step takes ticket 2 on the shared state. -/
def exPipeB : CommentInfo.Phase × CommentState × List CommentInfo.CEvent :=
  exStep (CommentInfo.Phase.start, exPipeA.2.1, [])

/-- The first pipeline's delayed continuation fires after the
supersession. -/
def exPipeF : CommentInfo.Phase × CommentState × List CommentInfo.CEvent :=
  exStep (CommentInfo.Phase.delayWait 1, exPipeB.2.1, exPipeA.2.2)

/-- The shared state destroyed while the first pipeline is suspended in
the settle delay. -/
def exPipeDestroyed : CommentState := CommentInfo.destroy exPipeA.2.1

/-- The first pipeline's delayed continuation fires after the item was
destroyed. -/
def exPipeFD : CommentInfo.Phase × CommentState × List CommentInfo.CEvent :=
  exStep (CommentInfo.Phase.delayWait 1, exPipeDestroyed, exPipeA.2.2)

/-- Settings constructed with regex mode on and blocked word `"a"`, then
switched to non-regex mode: the compiled-pattern cache keeps the stale
pattern. -/
def exStaleRegex : Settings :=
  (Settings.make (some true) (some true) (some true) (some false)
    (some ["en"]) (some false) (some ["en"]) (some 20) (some true)
    (some ["a"]) (some true) (some false) []).setRegularExpression false

/-- A persisted record with out-of-range threshold and a
whitespace-only blocked word. -/
def exBadRecord : Settings.JSONRecord :=
  { ed := true, ef := true, el := true, bl := false, il := ["en"],
    iu := false, ll := ["en"], pt := 150, ew := true, bw := ["  "],
    re := false, fr := false }

/-! # Theorems -/

/-! ## Properties of `ArrayUtil.distinct` -/

theorem mem_distinctAux {α : Type} [DecidableEq α] (a : α) :
    ∀ (xs seen : List α), a ∈ distinctAux seen xs ↔ a ∈ xs ∧ a ∉ seen := by
  intro xs
  induction xs with
  | nil => intro seen; simp [distinctAux]
  | cons x rest ih =>
      intro seen
      by_cases hx : x ∈ seen
      · simp only [distinctAux, if_pos hx, ih, List.mem_cons]
        constructor
        · rintro ⟨h1, h2⟩; exact ⟨Or.inr h1, h2⟩
        · rintro ⟨h1 | h1, h2⟩
          · exact absurd (h1 ▸ hx) h2
          · exact ⟨h1, h2⟩
      · simp only [distinctAux, if_neg hx, List.mem_cons, ih]
        constructor
        · rintro (rfl | ⟨h1, h2⟩)
          · exact ⟨Or.inl rfl, hx⟩
          · exact ⟨Or.inr h1, fun hc => h2 (Or.inr hc)⟩
        · rintro ⟨rfl | h1, h2⟩
          · exact Or.inl rfl
          · by_cases hax : a = x
            · exact Or.inl hax
            · exact Or.inr ⟨h1, fun hc => hc.elim hax h2⟩

theorem mem_distinct {α : Type} [DecidableEq α] (a : α) (xs : List α) :
    a ∈ distinct xs ↔ a ∈ xs := by
  simp [distinct, mem_distinctAux]

theorem nodup_distinctAux {α : Type} [DecidableEq α] :
    ∀ (xs seen : List α), (distinctAux seen xs).Nodup := by
  intro xs
  induction xs with
  | nil => intro seen; simp [distinctAux]
  | cons x rest ih =>
      intro seen
      by_cases hx : x ∈ seen
      · simpa [distinctAux, if_pos hx] using ih seen
      · rw [distinctAux, if_neg hx]
        refine List.nodup_cons.mpr ⟨?_, ih (x :: seen)⟩
        intro hc
        exact ((mem_distinctAux x rest (x :: seen)).mp hc).2 (List.mem_cons_self x seen)

theorem nodup_distinct {α : Type} [DecidableEq α] (xs : List α) :
    (distinct xs).Nodup := nodup_distinctAux xs []

theorem distinctAux_eq_self {α : Type} [DecidableEq α] :
    ∀ (xs seen : List α), xs.Nodup → (∀ a ∈ xs, a ∉ seen) →
      distinctAux seen xs = xs := by
  intro xs
  induction xs with
  | nil => intro seen _ _; rfl
  | cons x rest ih =>
      intro seen hnd hdisj
      have hx : x ∉ seen := hdisj x (List.mem_cons_self x rest)
      rw [distinctAux, if_neg hx]
      have hrest : rest.Nodup := (List.nodup_cons.mp hnd).2
      have hxr : x ∉ rest := (List.nodup_cons.mp hnd).1
      congr 1
      refine ih (x :: seen) hrest ?_
      intro a ha hc
      rcases List.mem_cons.mp hc with rfl | hc2
      · exact hxr ha
      · exact hdisj a (List.mem_cons_of_mem _ ha) hc2

theorem distinct_eq_self {α : Type} [DecidableEq α] (xs : List α)
    (h : xs.Nodup) : distinct xs = xs :=
  distinctAux_eq_self xs [] h (by intro a _ hc; exact absurd hc (List.not_mem_nil a))

/-! ## C7: threshold / unknown-language decision -/

/-- C7: with language filtering enabled, allow-mode,
`selectedLanguages={en}`, threshold 50 and `selectUnknown=false`,
`shouldFilterByLanguage` hides `[{en,49},{de,49},{ja,2}]` (all entries
below the threshold, hence unknown) and does not hide
`[{en-US,50},{de,48},{ja,2}]` (the primary subtag `en` of `en-US` is
selected and meets the threshold). -/
theorem shouldFilterByLanguage_cases :
    Settings.shouldFilterByLanguage exSettingsC7 exResultUnknown = true ∧
    Settings.shouldFilterByLanguage exSettingsC7 exResultEnUS = false := by
  decide

/-! ## C8: structural diff of settings -/

/-- C8: `shouldRefreshFilter` ignores a change of the default-enabled
flag, fires on any change of the percentage threshold, and ignores a
reordering of the blocked words (they are compared as sets). -/
theorem shouldRefreshFilter_diff :
    (∀ (s : Settings) (b : Bool),
        Settings.shouldRefreshFilter (s.setEnabledDefault b) s = false) ∧
    (∀ s t : Settings, s.percentageThreshold ≠ t.percentageThreshold →
        Settings.shouldRefreshFilter t s = true) ∧
    (∀ (s : Settings) (bw : List String), s.blockedWords.Perm bw →
        Settings.shouldRefreshFilter { s with blockedWords := bw } s = false) := by
  refine ⟨?_, ?_, ?_⟩
  · intro s b
    simp [Settings.shouldRefreshFilter, Settings.setEnabledDefault,
      SetUtil.equals, Finset.Subset.refl]
  · intro s t h
    simp only [Settings.shouldRefreshFilter]
    repeat' split
    all_goals simp_all
  · intro s bw h
    have hset : bw.toFinset = s.blockedWords.toFinset :=
      (List.toFinset_eq_of_perm _ _ h).symm
    simp [Settings.shouldRefreshFilter, SetUtil.equals, hset,
      Finset.Subset.refl]

/-- Witness for C8 at concrete settings values. -/
theorem shouldRefreshFilter_diff_witness :
    Settings.shouldRefreshFilter (exSettingsBase.setEnabledDefault false)
      exSettingsBase = false ∧
    Settings.shouldRefreshFilter exSettingsPt exSettingsBase = true ∧
    Settings.shouldRefreshFilter { exSettingsBase with blockedWords := ["b", "a"] }
      exSettingsBase = false :=
  ⟨shouldRefreshFilter_diff.1 exSettingsBase false,
   shouldRefreshFilter_diff.2.1 exSettingsBase exSettingsPt (by decide),
   shouldRefreshFilter_diff.2.2 exSettingsBase ["b", "a"] (by decide)⟩

/-! ## C1 and C2: the settle delay skips `verifyAge` -/

/-- C1: failing interleaving for the last-writer-wins guarantee.  A
pipeline with ticket 1 reaches the settle delay inside `applyFilter`; a
second `refreshAll` then begins and takes ticket 2, so `verifyAge 1`
now throws; yet when the delay elapses, the superseded pipeline still
sets `display='none'` and resolves `true` (the claim requires no
further DOM mutation and resolution to `false`). -/
theorem superseded_pipeline_still_mutates :
    exPipeA.1 = CommentInfo.Phase.delayWait 1 ∧
    exPipeB.1 = CommentInfo.Phase.fetch 2 ∧
    exPipeB.2.1.age = 2 ∧
    CommentInfo.verifyAge exPipeB.2.1 1 = Except.error (1, 2) ∧
    exPipeF.1 = CommentInfo.Phase.done true ∧
    exPipeF.2.1.display = "none" ∧
    CommentInfo.CEvent.domSet "none" ∈ exPipeF.2.2 := by
  decide

/-- C2: the delayed continuation does not re-validate the ticket.  With
the pipeline suspended in the settle delay, destroying the item sets
the generation to the sentinel `-1`, so `verifyAge 1` would throw; the
continuation nevertheless hides the element and resolves `true`. -/
theorem destroyed_during_delay_still_hides :
    exPipeA.1 = CommentInfo.Phase.delayWait 1 ∧
    exPipeDestroyed.age = -1 ∧
    CommentInfo.verifyAge exPipeDestroyed 1 = Except.error (1, -1) ∧
    exPipeFD.1 = CommentInfo.Phase.done true ∧
    exPipeFD.2.1.display = "none" ∧
    CommentInfo.CEvent.domSet "none" ∈ exPipeFD.2.2 := by
  decide

/-! ## C5: clear does not reset the ring buffer -/

/-- C5 counterexample: on a capacity-3 buffer, after
`push 1; push 2; pop; clear`, a `push 7` followed by `pop` returns the
stale element `2`, not `7` — the cleared buffer does not behave like a
freshly constructed one. -/
theorem clear_then_push_pop_returns_stale :
    runBufOps (CircularBuffer.empty Nat 3)
      [BufOp.push 1, BufOp.push 2, BufOp.pop, BufOp.clear,
       BufOp.push 7, BufOp.pop] =
      .ok ({ capacity := 3, data := [1, 2, 7], index := 2, sz := 0 },
           [some 1, some 2]) ∧
    (some 2 : Option Nat) ≠ some 7 := by
  decide

/-! ## C6: the constructor does not re-establish all invariants -/

/-- C6 counterexample: loading a record with `pt = 150` and a
whitespace-only blocked word yields a `Settings` whose threshold
exceeds 100 and whose `blockedWords` keeps the whitespace-only entry
(`normalizeWord` would map it to the empty string). -/
theorem loadFromJSON_keeps_bad_threshold_and_words :
    ¬ ((Settings.loadFromJSON exBadRecord []).percentageThreshold ≤ 100) ∧
    (Settings.loadFromJSON exBadRecord []).blockedWords = ["  "] ∧
    normalizeWord "  " = "" := by
  decide

/-! ## C3: round-trip and the stale pattern cache -/

/-- C3 counterexample: `exStaleRegex` is reachable (constructed with
regex mode on, then switched off); its compiled-pattern cache still
holds `"a"`, while the reloaded settings have an empty cache, so the
round-trip is not deep-equal. -/
theorem roundtrip_not_equal_on_stale_cache :
    Settings.loadFromJSON (Settings.toJSON exStaleRegex) [] ≠ exStaleRegex ∧
    exStaleRegex.regExp = ["a"] ∧
    (Settings.loadFromJSON (Settings.toJSON exStaleRegex) []).regExp = [] := by
  decide

/-! ## C10: the destroyed state is final -/

theorem step_done (ctx : AppContext) (rx : String → String → Bool)
    (isReply : Bool) (domText : String) (r : LanguageDetectorResult)
    (b : Bool) (s : CommentState) (ev : List CommentInfo.CEvent) :
    CommentInfo.step ctx rx isReply domText r (CommentInfo.Phase.done b, s, ev) =
      (CommentInfo.Phase.done b, s, ev) := rfl

theorem iterate_step_done (ctx : AppContext) (rx : String → String → Bool)
    (isReply : Bool) (domText : String) (r : LanguageDetectorResult)
    (n : Nat) (b : Bool) (s : CommentState) (ev : List CommentInfo.CEvent) :
    (CommentInfo.step ctx rx isReply domText r)^[n]
      (CommentInfo.Phase.done b, s, ev) = (CommentInfo.Phase.done b, s, ev) := by
  induction n with
  | zero => rfl
  | succ n ih => rw [Function.iterate_succ_apply, step_done, ih]

/-- C10: once `destroy()` has set the generation to the sentinel `-1`,
the state is final: `destroy` is idempotent, the sentinel never becomes
non-negative again, and every later `refreshAll` or `refreshFilter`
resolves to `false` with the state unchanged and no observable action
(no text fetch, no oracle call, no DOM mutation). -/
theorem destroyed_state_is_final :
    (∀ s : CommentState,
        CommentInfo.destroy (CommentInfo.destroy s) = CommentInfo.destroy s) ∧
    (∀ s : CommentState, (CommentInfo.destroy s).age = -1) ∧
    (∀ (ctx : AppContext) (rx : String → String → Bool) (isReply : Bool)
        (domText : String) (r : LanguageDetectorResult) (s : CommentState),
      s.age < 0 →
        CommentInfo.runRefreshAll ctx rx isReply domText r s = (false, s, []) ∧
        CommentInfo.runRefreshFilter ctx rx isReply s = (false, s, [])) := by
  refine ⟨fun s => rfl, fun s => rfl, ?_⟩
  intro ctx rx isReply domText r s h
  constructor
  · have h1 : CommentInfo.step ctx rx isReply domText r
        (CommentInfo.Phase.start, s, []) =
        (CommentInfo.Phase.done false, s, []) := by
      simp [CommentInfo.step, h]
    have h6 : (CommentInfo.step ctx rx isReply domText r)^[6]
        (CommentInfo.Phase.start, s, []) =
        (CommentInfo.Phase.done false, s, []) := by
      rw [show (6 : Nat) = 5 + 1 from rfl, Function.iterate_succ_apply, h1,
        iterate_step_done]
    simp [CommentInfo.runRefreshAll, h6]
  · simp [CommentInfo.runRefreshFilter, h]

/-- Witness for C10: the guards fire at a concretely destroyed state. -/
theorem destroyed_state_is_final_witness :
    CommentInfo.runRefreshAll exCtx exRx false "hello" exOracleJa
      (CommentInfo.destroy CommentInfo.initState) =
      (false, CommentInfo.destroy CommentInfo.initState, []) ∧
    CommentInfo.runRefreshFilter exCtx exRx false
      (CommentInfo.destroy CommentInfo.initState) =
      (false, CommentInfo.destroy CommentInfo.initState, []) :=
  destroyed_state_is_final.2.2 exCtx exRx false "hello" exOracleJa
    (CommentInfo.destroy CommentInfo.initState) (by decide)

/-! ## C9: the overflow branch is unreachable under the cache -/

theorem push_full_error {α : Type} (b : CircularBuffer α) (x : α)
    (h : b.sz = b.capacity) : b.push x = .error "capacity exceeded" := by
  simp [CircularBuffer.push, h]

theorem push_not_full {α : Type} (b : CircularBuffer α) (x : α)
    (h : b.sz ≠ b.capacity) :
    b.push x = .ok { b with
      data := if b.data.length < b.capacity then b.data ++ [x]
              else b.data.set ((b.index + b.sz) % b.capacity) x,
      sz := b.sz + 1 } := by
  simp [CircularBuffer.push, h]

theorem pop_empty {α : Type} (b : CircularBuffer α) (h : b.sz = 0) :
    b.pop = (none, b) := by
  simp [CircularBuffer.pop, h]

theorem pop_nonempty {α : Type} (b : CircularBuffer α) (h : b.sz ≠ 0) :
    b.pop = (b.data.get? b.index,
      { b with sz := b.sz - 1, index := (b.index + 1) % b.capacity }) := by
  simp [CircularBuffer.pop, h]

/-- Structural invariant of reachable detector states: the configured
capacity matches the queue's, and the queue never holds more than the
capacity. -/
theorem detectorReachable_inv {N : Nat} {d : LanguageDetector}
    (h : DetectorReachable N d) :
    d.maxCacheSize = N ∧ d.entries.capacity = N ∧ d.entries.sz ≤ N := by
  induction h with
  | init => exact ⟨rfl, rfl, Nat.zero_le N⟩
  | clear hd ih => exact ⟨ih.1, ih.2.1, Nat.zero_le N⟩
  | detect hd hstep ih =>
      rename_i d0 t oracle r d'
      obtain ⟨hmax, hcap, hsz⟩ := ih
      rcases hget : mapGet d0.cache (hashCode t) with _ | result
      · by_cases hfull : d0.entries.size = d0.maxCacheSize
        · have hszN : d0.entries.sz = N := by
            simpa [CircularBuffer.size, hmax] using hfull
          by_cases h0 : d0.entries.sz = 0
          · -- capacity 0: the push after the no-op pop throws, so the
            -- `.ok` hypothesis is impossible
            have hpe : d0.entries.push (hashCode t) =
                .error "capacity exceeded" :=
              push_full_error _ _ (by omega)
            simp [LanguageDetector.detectLanguage, hget, hfull,
              pop_empty _ h0, hpe] at hstep
          · have hpop := pop_nonempty d0.entries h0
            have hne : d0.entries.sz - 1 ≠ d0.entries.capacity := by
              rw [hcap]; omega
            have hpu := push_not_full
              ({ d0.entries with
                 sz := d0.entries.sz - 1,
                 index := (d0.entries.index + 1) % d0.entries.capacity })
              (hashCode t) (by simpa using hne)
            simp [LanguageDetector.detectLanguage, hget, hfull, hpop,
              hpu] at hstep
            obtain ⟨hr, hd'⟩ := hstep
            subst hd'
            refine ⟨by simpa using hmax, by simpa using hcap, ?_⟩
            simp
            omega
        · have hne : d0.entries.sz ≠ d0.entries.capacity := by
            intro hEq
            apply hfull
            simp only [CircularBuffer.size, hmax]
            omega
          have hpu := push_not_full d0.entries (hashCode t) hne
          simp [LanguageDetector.detectLanguage, hget, hfull, hpu] at hstep
          obtain ⟨hr, hd'⟩ := hstep
          subst hd'
          refine ⟨by simpa using hmax, by simpa using hcap, ?_⟩
          simp
          omega
      · simp [LanguageDetector.detectLanguage, hget] at hstep
        obtain ⟨hr, hd'⟩ := hstep
        subst hd'
        exact ⟨hmax, hcap, hsz⟩

/-- C9: `CircularBuffer.push` fails with `'capacity exceeded'` exactly
when the buffer is already full; and on every reachable state of a
detector of capacity at least 1, `detectLanguage` never reaches that
branch — the evict-before-insert logic keeps the queue from
overflowing.  (The concrete capacity constant lives in `Config.ts`,
which is not under `src/`; the spec's fixed-capacity cache presumes a
positive capacity, and at capacity 0 the first insertion would throw.) -/
theorem push_error_iff_full :
    (∀ (α : Type) (b : CircularBuffer α) (x : α),
        b.push x = Except.error "capacity exceeded" ↔ b.sz = b.capacity) ∧
    (∀ N : Nat, 1 ≤ N → ∀ d : LanguageDetector, DetectorReachable N d →
      ∀ (t : String) (oracle : String → LanguageDetectorResult),
        ∃ r d', d.detectLanguage t oracle = .ok (r, d')) := by
  constructor
  · intro α b x
    by_cases hc : b.sz = b.capacity
    · simp [CircularBuffer.push, hc]
    · simp [CircularBuffer.push, hc]
  · intro N hN d hreach t oracle
    obtain ⟨hmax, hcap, hsz⟩ := detectorReachable_inv hreach
    rcases hget : mapGet d.cache (hashCode t) with _ | result
    · by_cases hfull : d.entries.size = d.maxCacheSize
      · have hszN : d.entries.sz = N := by
          simpa [CircularBuffer.size, hmax] using hfull
        have h0 : d.entries.sz ≠ 0 := by omega
        have hpop := pop_nonempty d.entries h0
        have hne : d.entries.sz - 1 ≠ d.entries.capacity := by
          rw [hcap]; omega
        have hpu := push_not_full
          ({ d.entries with
             sz := d.entries.sz - 1,
             index := (d.entries.index + 1) % d.entries.capacity })
          (hashCode t) (by simpa using hne)
        exact ⟨oracle t, _, by
          simp only [LanguageDetector.detectLanguage, hget, hfull, if_pos,
            hpop, hpu]
          rfl⟩
      · have hne : d.entries.sz ≠ d.entries.capacity := by
          intro hEq
          apply hfull
          simp only [CircularBuffer.size, hmax]
          omega
        have hpu := push_not_full d.entries (hashCode t) hne
        exact ⟨oracle t, _, by
          simp [LanguageDetector.detectLanguage, hget, hfull, hpu]
          rfl⟩
    · exact ⟨result, d, by simp [LanguageDetector.detectLanguage, hget]⟩

/-- Witness for C9: a full capacity-1 buffer rejects a push, and
`detectLanguage` succeeds on the freshly constructed capacity-1
detector. -/
theorem push_error_iff_full_witness :
    ({ capacity := 1, data := [(0 : Int)], index := 0, sz := 1 } :
        CircularBuffer Int).push 3 = Except.error "capacity exceeded" ∧
    ∃ r d', (LanguageDetector.init 1).detectLanguage "a"
        (fun _ => exOracleJa) = .ok (r, d') :=
  ⟨(push_error_iff_full.1 Int _ 3).mpr rfl,
   push_error_iff_full.2 1 (le_refl 1) (LanguageDetector.init 1)
     DetectorReachable.init "a" (fun _ => exOracleJa)⟩
/-! ## C4: FIFO eviction of the classification cache -/

theorem mapGet_eq_none {β : Type} {m : List (Int × β)} {k : Int}
    (h : ∀ p ∈ m, p.1 ≠ k) : mapGet m k = none := by
  unfold mapGet
  rw [List.find?_eq_none.mpr]
  · rfl
  · intro p hp
    simpa using h p hp

theorem mapGet_canon {oracle : String → LanguageDetectorResult} :
    ∀ (ts : List String) (t : String), t ∈ ts → (ts.map hashCode).Nodup →
      mapGet (ts.map fun u => (hashCode u, oracle u)) (hashCode t) =
        some (oracle t) := by
  intro ts
  induction ts with
  | nil => intro t ht _; cases ht
  | cons t0 rest ih =>
      intro t ht hnd
      by_cases he : hashCode t0 = hashCode t
      · have ht0 : t ∈ t0 :: rest := ht
        rcases List.mem_cons.mp ht0 with rfl | hmem
        · unfold mapGet
          rw [List.map_cons, List.find?_cons_of_pos _ (by simp [he])]
          rfl
        · exfalso
          have hnotin : hashCode t0 ∉ rest.map hashCode :=
            (List.nodup_cons.mp (by simpa using hnd)).1
          exact hnotin (he ▸ List.mem_map_of_mem hashCode hmem)
      · rcases List.mem_cons.mp ht with rfl | hmem
        · exact absurd rfl he
        · have hrest : (rest.map hashCode).Nodup :=
            (List.nodup_cons.mp (by simpa using hnd)).2
          have := ih t hmem hrest
          unfold mapGet at this ⊢
          rw [List.map_cons, List.find?_cons_of_neg _ (by simpa using he)]
          exact this

theorem mapSet_append {β : Type} {m : List (Int × β)} {k : Int} {v : β}
    (h : ∀ p ∈ m, p.1 ≠ k) : mapSet m k v = m ++ [(k, v)] := by
  have hany : m.any (fun p => decide (p.1 = k)) = false := by
    rw [List.any_eq_false]
    intro p hp
    simpa using h p hp
  simp [mapSet, hany]

theorem mapDelete_cons_self {β : Type} {k : Int} {v : β}
    {rest : List (Int × β)} (h : ∀ p ∈ rest, p.1 ≠ k) :
    mapDelete ((k, v) :: rest) k = rest := by
  simp only [mapDelete, List.filter_cons]
  rw [if_neg (by simp)]
  rw [List.filter_eq_self.mpr]
  intro p hp
  simpa using h p hp

/-- `detectLanguage` on a cache hit. -/
theorem detectLanguage_hit {d : LanguageDetector} {t : String}
    {oracle : String → LanguageDetectorResult} {result : LanguageDetectorResult}
    (hget : mapGet d.cache (hashCode t) = some result) :
    d.detectLanguage t oracle = .ok (result, d) := by
  simp [LanguageDetector.detectLanguage, hget]

/-- `detectLanguage` on a miss while the queue is under capacity. -/
theorem detectLanguage_miss_notfull {d : LanguageDetector} {t : String}
    {oracle : String → LanguageDetectorResult} {e2 : CircularBuffer Int}
    (hget : mapGet d.cache (hashCode t) = none)
    (hfull : ¬ (d.entries.size = d.maxCacheSize))
    (hpush : d.entries.push (hashCode t) = .ok e2) :
    d.detectLanguage t oracle = .ok (oracle t,
      { cache := mapSet d.cache (hashCode t) (oracle t),
        entries := e2, maxCacheSize := d.maxCacheSize }) := by
  simp [LanguageDetector.detectLanguage, hget, hfull, hpush]

/-- `detectLanguage` on a miss while the queue is at capacity: evict
the popped key first. -/
theorem detectLanguage_miss_full {d : LanguageDetector} {t : String}
    {oracle : String → LanguageDetectorResult} {oldKey : Int}
    {epop e2 : CircularBuffer Int}
    (hget : mapGet d.cache (hashCode t) = none)
    (hfull : d.entries.size = d.maxCacheSize)
    (hpop : d.entries.pop = (some oldKey, epop))
    (hpush : epop.push (hashCode t) = .ok e2) :
    d.detectLanguage t oracle = .ok (oracle t,
      { cache := mapSet (mapDelete d.cache oldKey) (hashCode t) (oracle t),
        entries := e2, maxCacheSize := d.maxCacheSize }) := by
  simp [LanguageDetector.detectLanguage, hget, hfull, hpop, hpush]

/-- One miss while the cache is still under capacity extends the
canonical state. -/
theorem detect_canon_under {N : Nat} {oracle : String → LanguageDetectorResult}
    {ts : List String} {t : String}
    (hlt : ts.length < N) (hnotin : hashCode t ∉ ts.map hashCode) :
    (canonDetector N oracle ts).detectLanguage t oracle =
      .ok (oracle t, canonDetector N oracle (ts ++ [t])) := by
  have hget : mapGet (canonDetector N oracle ts).cache (hashCode t) = none := by
    apply mapGet_eq_none
    intro p hp
    simp only [canonDetector, List.mem_map] at hp
    obtain ⟨u, hu, rfl⟩ := hp
    intro hk
    have hk' : hashCode u = hashCode t := hk
    exact hnotin (hk' ▸ List.mem_map_of_mem hashCode hu)
  have hfull : ¬ ((canonDetector N oracle ts).entries.size =
      (canonDetector N oracle ts).maxCacheSize) := by
    simp only [canonDetector, CircularBuffer.size]
    omega
  have hne : (canonDetector N oracle ts).entries.sz ≠
      (canonDetector N oracle ts).entries.capacity := by
    simp only [canonDetector]
    omega
  have hpu := push_not_full (canonDetector N oracle ts).entries (hashCode t) hne
  have hmset : mapSet (canonDetector N oracle ts).cache (hashCode t)
      (oracle t) = (canonDetector N oracle ts).cache ++
        [(hashCode t, oracle t)] := by
    apply mapSet_append
    intro p hp
    simp only [canonDetector, List.mem_map] at hp
    obtain ⟨u, hu, rfl⟩ := hp
    intro hk
    have hk' : hashCode u = hashCode t := hk
    exact hnotin (hk' ▸ List.mem_map_of_mem hashCode hu)
  rw [detectLanguage_miss_notfull hget hfull hpu, hmset]
  simp only [canonDetector, List.map_append]
  rw [if_pos (show (List.map hashCode ts).length <
    ({ capacity := N
       data := List.map hashCode ts
       index := 0
       sz := ts.length } : CircularBuffer Int).capacity by
      simpa using hlt)]
  simp

theorem runDetect_cons {d : LanguageDetector}
    {oracle : String → LanguageDetectorResult} {t : String}
    {rest : List String} {r : LanguageDetectorResult} {d' : LanguageDetector}
    (h : d.detectLanguage t oracle = .ok (r, d')) :
    LanguageDetector.runDetect d oracle (t :: rest) =
      LanguageDetector.runDetect d' oracle rest := by
  simp [LanguageDetector.runDetect, h]

theorem runDetect_append {oracle : String → LanguageDetectorResult} :
    ∀ (xs : List String) {d d' : LanguageDetector},
      LanguageDetector.runDetect d oracle xs = .ok d' →
      ∀ ys, LanguageDetector.runDetect d oracle (xs ++ ys) =
        LanguageDetector.runDetect d' oracle ys := by
  intro xs
  induction xs with
  | nil =>
      intro d d' h ys
      simp [LanguageDetector.runDetect] at h
      subst h
      rfl
  | cons x xs ih =>
      intro d d' h ys
      rcases hx : d.detectLanguage x oracle with e | p
      · rw [LanguageDetector.runDetect, hx] at h
        exact absurd h (by simp)
      · have h2 : LanguageDetector.runDetect p.2 oracle xs = .ok d' := by
          rw [LanguageDetector.runDetect, hx] at h
          exact h
        rw [List.cons_append, LanguageDetector.runDetect, hx]
        exact ih h2 ys

/-- Running the first `k ≤ N` distinct-hash misses from a canonical
state yields the canonical state of the concatenation. -/
theorem runDetect_canon {N : Nat} {oracle : String → LanguageDetectorResult} :
    ∀ (ts pre : List String),
      ((pre ++ ts).map hashCode).Nodup → (pre ++ ts).length ≤ N →
      LanguageDetector.runDetect (canonDetector N oracle pre) oracle ts =
        .ok (canonDetector N oracle (pre ++ ts)) := by
  intro ts
  induction ts with
  | nil =>
      intro pre _ _
      simp [LanguageDetector.runDetect]
  | cons t rest ih =>
      intro pre hnd hlen
      have hlt : pre.length < N := by
        rw [List.length_append, List.length_cons] at hlen
        omega
      have hnotin : hashCode t ∉ pre.map hashCode := by
        rw [List.map_append] at hnd
        rcases List.nodup_append.mp hnd with ⟨_, _, hdisj⟩
        intro hmem
        exact hdisj hmem (by simp)
      rw [runDetect_cons (detect_canon_under hlt hnotin)]
      have hEq : (pre ++ [t]) ++ rest = pre ++ t :: rest := by
        rw [List.append_assoc, List.singleton_append]
      have := ih (pre ++ [t]) (by rw [hEq]; exact hnd) (by rw [hEq]; exact hlen)
      rw [this, hEq]

/-- The `N+1`-st distinct-hash miss on a full canonical state evicts
exactly the first key. -/
theorem detect_canon_full {N : Nat} {oracle : String → LanguageDetectorResult}
    {t1 : String} {mid : List String} {t : String}
    (hN : mid.length + 1 = N)
    (hnd : ((t1 :: (mid ++ [t])).map hashCode).Nodup) :
    ∃ e2, (canonDetector N oracle (t1 :: mid)).detectLanguage t oracle =
      .ok (oracle t,
        { cache := (mid ++ [t]).map (fun u => (hashCode u, oracle u)),
          entries := e2, maxCacheSize := N }) := by
  have hnd' : (hashCode t1 :: (mid.map hashCode ++ [hashCode t])).Nodup := by
    simpa [List.map_append] using hnd
  obtain ⟨hh1, hndrest⟩ := List.nodup_cons.mp hnd'
  have hget : mapGet (canonDetector N oracle (t1 :: mid)).cache
      (hashCode t) = none := by
    apply mapGet_eq_none
    intro p hp
    simp only [canonDetector, List.mem_map] at hp
    obtain ⟨u, hu, rfl⟩ := hp
    intro hk
    have hk' : hashCode u = hashCode t := hk
    rcases List.mem_cons.mp hu with rfl | humid
    · exact hh1 (by simp [hk'])
    · rcases List.nodup_append.mp hndrest with ⟨_, _, hdisj⟩
      exact hdisj (hk' ▸ List.mem_map_of_mem hashCode humid) (by simp)
  have hfull : (canonDetector N oracle (t1 :: mid)).entries.size =
      (canonDetector N oracle (t1 :: mid)).maxCacheSize := by
    simp only [canonDetector, CircularBuffer.size, List.length_cons]
    exact hN
  have h0 : (canonDetector N oracle (t1 :: mid)).entries.sz ≠ 0 := by
    simp [canonDetector]
  have hpop : (canonDetector N oracle (t1 :: mid)).entries.pop =
      (some (hashCode t1),
       { capacity := N
         data := (t1 :: mid).map hashCode
         index := 1 % N
         sz := mid.length }) := by
    rw [pop_nonempty _ h0]
    rfl
  have hdel : mapDelete (canonDetector N oracle (t1 :: mid)).cache
      (hashCode t1) = mid.map (fun u => (hashCode u, oracle u)) := by
    show mapDelete ((hashCode t1, oracle t1) ::
      mid.map (fun u => (hashCode u, oracle u))) (hashCode t1) = _
    apply mapDelete_cons_self
    intro p hp
    simp only [List.mem_map] at hp
    obtain ⟨u, hu, rfl⟩ := hp
    intro hk
    have hk' : hashCode u = hashCode t1 := hk
    apply hh1
    rw [← hk']
    exact List.mem_append_left _ (List.mem_map_of_mem hashCode hu)
  have hmset : mapSet (mid.map (fun u => (hashCode u, oracle u)))
      (hashCode t) (oracle t) =
      mid.map (fun u => (hashCode u, oracle u)) ++
        [(hashCode t, oracle t)] := by
    apply mapSet_append
    intro p hp
    simp only [List.mem_map] at hp
    obtain ⟨u, hu, rfl⟩ := hp
    intro hk
    have hk' : hashCode u = hashCode t := hk
    rcases List.nodup_append.mp hndrest with ⟨_, _, hdisj⟩
    exact hdisj (hk' ▸ List.mem_map_of_mem hashCode hu) (by simp)
  have hnepush : ({ capacity := N
                    data := (t1 :: mid).map hashCode
                    index := 1 % N
                    sz := mid.length } : CircularBuffer Int).sz ≠
      ({ capacity := N
         data := (t1 :: mid).map hashCode
         index := 1 % N
         sz := mid.length } : CircularBuffer Int).capacity := by
    simp
    omega
  have hpu := push_not_full
    ({ capacity := N
       data := (t1 :: mid).map hashCode
       index := 1 % N
       sz := mid.length } : CircularBuffer Int)
    (hashCode t) hnepush
  have hfinal := @detectLanguage_miss_full _ _ oracle _ _ _ hget hfull hpop hpu
  rw [hdel, hmset] at hfinal
  have hcacheEq : (List.map (fun u => (hashCode u, oracle u)) mid) ++
      [(hashCode t, oracle t)] =
      List.map (fun u => (hashCode u, oracle u)) (mid ++ [t]) := by
    rw [List.map_append]
    rfl
  rw [hcacheEq] at hfinal
  exact ⟨_, hfinal⟩

/-- C4: starting from a fresh cache of capacity `N ≥ 1`, inserting
`N + 1` texts with pairwise distinct fingerprints through
`detectLanguage` misses evicts exactly the first fingerprint: its
lookup misses, and the later `N` fingerprints are all still cached. -/
theorem cache_evicts_exactly_first (N : Nat) (t1 : String)
    (rest : List String) (oracle : String → LanguageDetectorResult)
    (hN : 1 ≤ N) (hlen : rest.length = N)
    (hnd : ((t1 :: rest).map hashCode).Nodup) :
    ∃ d, LanguageDetector.runDetect (LanguageDetector.init N) oracle
        (t1 :: rest) = .ok d ∧
      mapGet d.cache (hashCode t1) = none ∧
      ∀ t ∈ rest, mapGet d.cache (hashCode t) = some (oracle t) := by
  rcases List.eq_nil_or_concat rest with rfl | ⟨mid, tl, rfl⟩
  · exfalso
    rw [List.length_nil] at hlen
    omega
  · rw [List.concat_eq_append] at hlen hnd ⊢
    have hmidlen : mid.length + 1 = N := by
      rw [List.length_append, List.length_singleton] at hlen
      omega
    have hndpre : (((t1 :: mid) : List String).map hashCode).Nodup := by
      have hsub : List.Sublist ((t1 :: mid) : List String)
          (t1 :: (mid ++ [tl])) :=
        List.Sublist.cons₂ t1 (List.sublist_append_left mid [tl])
      exact hnd.sublist (List.Sublist.map hashCode hsub)
    have h1 : LanguageDetector.runDetect (canonDetector N oracle []) oracle
        (t1 :: mid) = .ok (canonDetector N oracle (t1 :: mid)) := by
      have := @runDetect_canon N oracle (t1 :: mid) []
      simp only [List.nil_append] at this
      apply this hndpre
      rw [List.length_cons]
      omega
    obtain ⟨e2, h2⟩ := @detect_canon_full N oracle t1 mid tl hmidlen hnd
    have hrun : LanguageDetector.runDetect (LanguageDetector.init N) oracle
        ((t1 :: mid) ++ [tl]) =
        LanguageDetector.runDetect (canonDetector N oracle (t1 :: mid))
          oracle [tl] :=
      runDetect_append (t1 :: mid) h1 [tl]
    rw [List.cons_append] at hrun
    have hstep : LanguageDetector.runDetect
        (canonDetector N oracle (t1 :: mid)) oracle [tl] =
        .ok { cache := (mid ++ [tl]).map (fun u => (hashCode u, oracle u)),
              entries := e2, maxCacheSize := N } := by
      rw [runDetect_cons h2]
      rfl
    refine ⟨{ cache := (mid ++ [tl]).map (fun u => (hashCode u, oracle u))
              entries := e2
              maxCacheSize := N }, ?_, ?_, ?_⟩
    · rw [hrun, hstep]
    · apply mapGet_eq_none
      intro p hp
      simp only [List.mem_map] at hp
      obtain ⟨u, hu, rfl⟩ := hp
      intro hk
      have hk2 : hashCode u = hashCode t1 := hk
      have hnd2 : (hashCode t1 :: ((mid ++ [tl]).map hashCode)).Nodup := by
        simpa using hnd
      exact (List.nodup_cons.mp hnd2).1
        (hk2 ▸ List.mem_map_of_mem hashCode hu)
    · intro t ht
      apply mapGet_canon (mid ++ [tl]) t ht
      have hnd2 : (hashCode t1 :: ((mid ++ [tl]).map hashCode)).Nodup := by
        simpa using hnd
      exact (List.nodup_cons.mp hnd2).2

/-- Witness for C4 at capacity 2 with three distinct-hash texts. -/
theorem cache_evicts_exactly_first_witness :
    ∃ d, LanguageDetector.runDetect (LanguageDetector.init 2)
        (fun _ => exOracleJa) ["a", "b", "c"] = .ok d ∧
      mapGet d.cache (hashCode "a") = none ∧
      ∀ t ∈ ["b", "c"], mapGet d.cache (hashCode t) =
        some ((fun _ => exOracleJa) t) :=
  cache_evicts_exactly_first 2 "a" ["b", "c"] (fun _ => exOracleJa)
    (by decide) (by decide) (by decide)

/-! ## C5 (amended): clear and FIFO behaviour of the ring buffer -/

theorem mod_add_inj {cap index j k : Nat} (hj : j < cap) (hk : k < cap)
    (h : (index + j) % cap = (index + k) % cap) : j = k := by
  have h2 : j ≡ k [MOD cap] := Nat.ModEq.add_left_cancel' index h
  rw [Nat.ModEq, Nat.mod_eq_of_lt hj, Nat.mod_eq_of_lt hk] at h2
  exact h2

theorem ringRep_clear {α : Type} (b : CircularBuffer α)
    (h1 : b.data.length = b.capacity) (h2 : b.index < b.capacity) :
    RingRep b.clear ([] : List α) := by
  refine ⟨h1, h2, rfl, Nat.zero_le _, ?_⟩
  intro j hj
  exact absurd hj (Nat.not_lt_zero j)

theorem ringRep_push {α : Type} {b : CircularBuffer α} {q : List α} (x : α)
    (hR : RingRep b q) (hlt : q.length < b.capacity) :
    ∃ b', b.push x = .ok b' ∧ RingRep b' (q ++ [x]) := by
  obtain ⟨hlen, hidx, hsz, hle, hget⟩ := hR
  have hcappos : 0 < b.capacity := Nat.lt_of_le_of_lt (Nat.zero_le _) hlt
  have hne : b.sz ≠ b.capacity := by omega
  have hpu := push_not_full b x hne
  have hnotlt : ¬ (b.data.length < b.capacity) := by omega
  rw [if_neg hnotlt] at hpu
  refine ⟨_, hpu, ?_, ?_, ?_, ?_, ?_⟩
  · simpa [List.length_set] using hlen
  · simpa using hidx
  · simp [hsz]
  · simp
    omega
  · intro j hj
    rw [List.length_append, List.length_singleton] at hj
    show (b.data.set ((b.index + b.sz) % b.capacity) x).get?
      ((b.index + j) % b.capacity) = (q ++ [x]).get? j
    rcases Nat.lt_or_ge j q.length with hjlt | hjge
    · have hneidx : (b.index + b.sz) % b.capacity ≠
          (b.index + j) % b.capacity := by
        intro hEq
        have := mod_add_inj (by omega) (by omega) hEq
        omega
      rw [List.get?_set_ne x _ hneidx, hget j hjlt, List.get?_append hjlt]
    · have hjq : j = q.length := by omega
      subst hjq
      rw [hsz, List.get?_set_eq_of_lt x
        (by rw [hlen]; exact Nat.mod_lt _ hcappos),
        List.get?_append_right (le_refl _)]
      simp

theorem ringRep_pop {α : Type} {b : CircularBuffer α} {x : α} {q : List α}
    (hR : RingRep b (x :: q)) :
    ∃ b', b.pop = (some x, b') ∧ RingRep b' q := by
  obtain ⟨hlen, hidx, hsz, hle, hget⟩ := hR
  have hcappos : 0 < b.capacity := Nat.lt_of_le_of_lt (Nat.zero_le _) hidx
  have h0 : b.sz ≠ 0 := by
    rw [hsz]
    simp
  have hpop := pop_nonempty b h0
  have hv : b.data.get? b.index = some x := by
    have := hget 0 (by simp)
    rwa [Nat.add_zero, Nat.mod_eq_of_lt hidx] at this
  rw [hv] at hpop
  refine ⟨_, hpop, hlen, Nat.mod_lt _ hcappos, ?_, ?_, ?_⟩
  · simp [hsz]
  · show q.length ≤ b.capacity
    rw [List.length_cons] at hle
    omega
  · intro j hj
    show b.data.get? (((b.index + 1) % b.capacity + j) % b.capacity) =
      q.get? j
    rw [Nat.mod_add_mod]
    have harith : b.index + 1 + j = b.index + (j + 1) := by omega
    rw [harith, hget (j + 1) (by simp; omega)]
    rfl

theorem push_ok_fields {α : Type} {b : CircularBuffer α} {x : α}
    {b' : CircularBuffer α} (h : b.push x = .ok b') :
    b'.capacity = b.capacity ∧ b'.sz = b.sz + 1 ∧ b.sz ≠ b.capacity := by
  by_cases hc : b.sz = b.capacity
  · rw [push_full_error b x hc] at h
    exact absurd h (by simp)
  · rw [push_not_full b x hc] at h
    have h3 := Except.ok.inj h
    subst h3
    exact ⟨rfl, rfl, hc⟩

theorem ringRep_pushAll {α : Type} :
    ∀ (xs : List α) {b : CircularBuffer α} {q : List α},
      RingRep b q → q.length + xs.length ≤ b.capacity →
      ∃ bf, pushAll b xs = .ok bf ∧ RingRep bf (q ++ xs) := by
  intro xs
  induction xs with
  | nil =>
      intro b q hR _
      exact ⟨b, rfl, by simpa using hR⟩
  | cons x rest ih =>
      intro b q hR hlen
      rw [List.length_cons] at hlen
      obtain ⟨b1, hp, hR1⟩ := ringRep_push x hR (by omega)
      have hcap : b1.capacity = b.capacity := (push_ok_fields hp).1
      obtain ⟨bf, hrest, hRf⟩ := ih hR1 (by rw [hcap]; simp; omega)
      refine ⟨bf, ?_, ?_⟩
      · simp [pushAll, hp, hrest]
      · have : (q ++ [x]) ++ rest = q ++ x :: rest := by
          rw [List.append_assoc, List.singleton_append]
        rwa [this] at hRf

theorem ringRep_popN {α : Type} :
    ∀ (q : List α) {b : CircularBuffer α}, RingRep b q →
      (popN b q.length).1 = q.map some := by
  intro q
  induction q with
  | nil => intro b _; rfl
  | cons x rest ih =>
      intro b hR
      obtain ⟨b1, hpop, hR1⟩ := ringRep_pop hR
      have hrest := ih hR1
      rw [List.length_cons]
      show (popN b (rest.length + 1)).1 = some x :: rest.map some
      simp only [popN, hpop]
      rw [← hrest]

/-- C5 (amended): `clearCache` empties both the cache map and the
eviction queue (its `size` becomes 0); and a cleared buffer whose
backing array had already grown to full capacity behaves like a fresh
queue — any batch of at most `capacity` pushes followed by pops
returns exactly that batch, in insertion (FIFO) order; in particular a
`push x` followed by `pop` returns `x`.  Without the full-array
proviso, the cleared buffer can return stale elements, as the
counterexample shows. -/
theorem clear_empties_and_fifo :
    (∀ d : LanguageDetector,
        d.clearCache.cache = [] ∧ d.clearCache.entries.size = 0) ∧
    (∀ b : CircularBuffer Nat, b.data.length = b.capacity →
      b.index < b.capacity → ∀ xs : List Nat, xs.length ≤ b.capacity →
      ∃ bf, pushAll b.clear xs = .ok bf ∧
        (popN bf xs.length).1 = xs.map some) := by
  constructor
  · intro d
    exact ⟨rfl, rfl⟩
  · intro b h1 h2 xs hxs
    have hR : RingRep b.clear ([] : List Nat) := ringRep_clear b h1 h2
    obtain ⟨bf, hps, hRf⟩ := ringRep_pushAll xs hR (by simpa using hxs)
    have hRf2 : RingRep bf xs := by simpa using hRf
    exact ⟨bf, hps, ringRep_popN xs hRf2⟩

/-- Witness for C5: a cleared full capacity-2 buffer accepts the batch
`[7, 8]` and pops it back in order. -/
theorem clear_empties_and_fifo_witness :
    ((LanguageDetector.init 2).clearCache.cache = [] ∧
      (LanguageDetector.init 2).clearCache.entries.size = 0) ∧
    ∃ bf, pushAll (({ capacity := 2, data := [5, 6], index := 1, sz := 2 } :
        CircularBuffer Nat).clear) [7, 8] = .ok bf ∧
      (popN bf 2).1 = [some 7, some 8] :=
  ⟨clear_empties_and_fifo.1 (LanguageDetector.init 2),
   clear_empties_and_fifo.2
     ({ capacity := 2, data := [5, 6], index := 1, sz := 2 } :
       CircularBuffer Nat) (by decide) (by decide) [7, 8] (by decide)⟩

/-! ## C6 and C3: constructor invariants and the settings round-trip -/

theorem subset_core (L l2 : List String) (x : String) (hx : x ∈ L) :
    x ∈ L.filter (fun v => !(l2.contains v)) ++ distinct l2 := by
  by_cases hc : x ∈ l2
  · exact List.mem_append_right _ ((mem_distinct x l2).mpr hc)
  · refine List.mem_append_left _ ?_
    rw [List.mem_filter]
    exact ⟨hx, by simpa using hc⟩

/-- The constructor re-establishes `selectedLanguages ⊆ listedLanguages`
for arbitrary inputs. -/
theorem make_subset (a b c d : Option Bool) (sel : Option (List String))
    (u : Option Bool) (ll : Option (List String)) (pt : Option Rat)
    (w : Option Bool) (bw : Option (List String)) (re fr : Option Bool)
    (nav : List String) :
    ∀ x ∈ (Settings.make a b c d sel u ll pt w bw re fr nav).selectedLanguages,
      x ∈ (Settings.make a b c d sel u ll pt w bw re fr nav).listedLanguages := by
  intro x hx
  cases ll with
  | none =>
      simp only [Settings.make, List.mem_toFinset] at hx ⊢
      exact hx
  | some l2 =>
      simp only [Settings.make, List.mem_toFinset] at hx ⊢
      exact subset_core _ l2 x hx

/-- The constructor's `listedLanguages` is duplicate-free. -/
theorem make_listed_nodup (a b c d : Option Bool) (sel : Option (List String))
    (u : Option Bool) (ll : Option (List String)) (pt : Option Rat)
    (w : Option Bool) (bw : Option (List String)) (re fr : Option Bool)
    (nav : List String) :
    (Settings.make a b c d sel u ll pt w bw re fr nav).listedLanguages.Nodup := by
  have hlang : (match sel with
      | none => Settings.getPreferredLanguages nav
      | some sl => distinct sl).Nodup := by
    cases sel with
    | none => exact nodup_distinct _
    | some sl => exact nodup_distinct sl
  cases ll with
  | none =>
      simp only [Settings.make]
      exact hlang
  | some l2 =>
      simp only [Settings.make]
      refine List.Nodup.append (hlang.filter _) (nodup_distinct l2) ?_
      intro x hx1 hx2
      rw [List.mem_filter] at hx1
      have hx3 : x ∉ l2 := by simpa using hx1.2
      exact hx3 ((mem_distinct x l2).mp hx2)

/-- The constructor leaves the compiled-pattern cache in sync whenever
regex mode ends up enabled. -/
theorem make_regexp_sync (a b c d : Option Bool) (sel : Option (List String))
    (u : Option Bool) (ll : Option (List String)) (pt : Option Rat)
    (w : Option Bool) (bw : Option (List String)) (re fr : Option Bool)
    (nav : List String) :
    (Settings.make a b c d sel u ll pt w bw re fr nav).regularExpressionEnabled
        = true →
      (Settings.make a b c d sel u ll pt w bw re fr nav).regExp =
        (Settings.make a b c d sel u ll pt w bw re fr nav).blockedWords := by
  intro h
  simp only [Settings.make] at h ⊢
  simp [h]

/-- C6 (amended): loading an arbitrary record through the constructor
re-establishes the `selectedLanguages ⊆ listedLanguages` invariant, but
`percentageThreshold` and `blockedWords` are stored verbatim — the
clamping to `[0,100]` and the whitespace normalization happen only in
the setters, so those two invariants hold only when the record already
satisfied them. -/
theorem load_reestablishes_subset_only :
    (∀ (a b c d : Option Bool) (sel : Option (List String))
        (u : Option Bool) (ll : Option (List String)) (pt : Option Rat)
        (w : Option Bool) (bw : Option (List String)) (re fr : Option Bool)
        (nav : List String),
      ∀ x ∈ (Settings.make a b c d sel u ll pt w bw re fr
          nav).selectedLanguages,
        x ∈ (Settings.make a b c d sel u ll pt w bw re fr
          nav).listedLanguages) ∧
    (∀ (j : Settings.JSONRecord) (nav : List String),
      (Settings.loadFromJSON j nav).percentageThreshold = j.pt ∧
      (Settings.loadFromJSON j nav).blockedWords = j.bw) :=
  ⟨make_subset, fun _ _ => ⟨rfl, rfl⟩⟩

/-- Witness for C6 at the bad record: the subset invariant holds while
the threshold is passed through unclamped. -/
theorem load_reestablishes_subset_only_witness :
    "en" ∈ (Settings.loadFromJSON exBadRecord []).listedLanguages ∧
    (Settings.loadFromJSON exBadRecord []).percentageThreshold =
      exBadRecord.pt :=
  ⟨load_reestablishes_subset_only.1 (some true) (some true) (some true)
      (some false) (some ["en"]) (some false) (some ["en"]) (some 150)
      (some true) (some ["  "]) (some false) (some false) [] "en"
      (by decide),
   (load_reestablishes_subset_only.2 exBadRecord []).1⟩

/-- Invariants of every reachable `Settings` value. -/
theorem reachable_inv {s : Settings} (h : Reachable s) :
    s.listedLanguages.Nodup ∧
    (∀ x ∈ s.selectedLanguages, x ∈ s.listedLanguages) ∧
    (s.regularExpressionEnabled = true → s.regExp = s.blockedWords) := by
  induction h with
  | make a b c d sel u ll pt w bw re fr nav =>
      exact ⟨make_listed_nodup a b c d sel u ll pt w bw re fr nav,
        make_subset a b c d sel u ll pt w bw re fr nav,
        make_regexp_sync a b c d sel u ll pt w bw re fr nav⟩
  | copy h ih =>
      rename_i s0
      exact ⟨make_listed_nodup _ _ _ _ _ _ _ _ _ _ _ _ _,
        make_subset _ _ _ _ _ _ _ _ _ _ _ _ _,
        make_regexp_sync _ _ _ _ _ _ _ _ _ _ _ _ _⟩
  | setEnabledDefault b h ih =>
      simpa [Settings.setEnabledDefault] using ih
  | setFilterButtonVisible b h ih =>
      simpa [Settings.setFilterButtonVisible] using ih
  | setLanguageFilterEnabled b h ih =>
      simpa [Settings.setLanguageFilterEnabled] using ih
  | setLanguageBlockList b h ih =>
      simpa [Settings.setLanguageBlockList] using ih
  | setSelectedLanguage h hok ih =>
      rename_i s0 s' l v
      obtain ⟨hnd, hsub, hsync⟩ := ih
      unfold Settings.setSelectedLanguage at hok
      by_cases hc : s0.listedLanguages.contains l
      · have hl : l ∈ s0.listedLanguages := by simpa using hc
        rw [if_neg (by simp [hl])] at hok
        cases v with
        | true =>
            rw [if_pos rfl] at hok
            have hs' := Except.ok.inj hok
            subst hs'
            refine ⟨hnd, ?_, hsync⟩
            intro x hx
            rcases Finset.mem_insert.mp hx with rfl | hx2
            · exact hl
            · exact hsub x hx2
        | false =>
            rw [if_neg (by simp)] at hok
            have hs' := Except.ok.inj hok
            subst hs'
            refine ⟨hnd, ?_, hsync⟩
            intro x hx
            exact hsub x (Finset.mem_of_mem_erase hx)
      · have hl : l ∉ s0.listedLanguages := by simpa using hc
        rw [if_pos (by simp [hl])] at hok
        exact absurd hok (by simp)
  | setSelectUnknown b h ih =>
      simpa [Settings.setSelectUnknown] using ih
  | addListedLanguage l i h ih =>
      rename_i s0
      obtain ⟨hnd, hsub, hsync⟩ := ih
      unfold Settings.addListedLanguage
      by_cases hc : s0.listedLanguages.contains l
      · rw [if_pos hc]
        exact ⟨hnd, hsub, hsync⟩
      · rw [if_neg hc]
        have hl : l ∉ s0.listedLanguages := by simpa using hc
        refine ⟨?_, ?_, hsync⟩
        · refine List.Nodup.append hnd (List.nodup_singleton l) ?_
          intro x hx1 hx2
          rw [List.mem_singleton] at hx2
          subst hx2
          exact hl hx1
        · intro x hx
          cases i with
          | true =>
              rcases Finset.mem_insert.mp hx with rfl | hx2
              · exact List.mem_append_right _ (List.mem_singleton_self x)
              · exact List.mem_append_left _ (hsub x hx2)
          | false =>
              exact List.mem_append_left _ (hsub x hx)
  | removeListedLanguage l h ih =>
      obtain ⟨hnd, hsub, hsync⟩ := ih
      simp only [Settings.removeListedLanguage]
      refine ⟨hnd.erase l, ?_, hsync⟩
      intro x hx
      rw [Finset.mem_erase] at hx
      exact (hnd.mem_erase_iff).mpr ⟨hx.1, hsub x hx.2⟩
  | setPercentageThreshold v h ih =>
      simpa [Settings.setPercentageThreshold] using ih
  | setWordFilterEnabled b h ih =>
      simpa [Settings.setWordFilterEnabled] using ih
  | setBlockedWords ws h ih =>
      rename_i s0
      obtain ⟨hnd, hsub, hsync⟩ := ih
      unfold Settings.setBlockedWords Settings.cacheRegExp
      by_cases hre : s0.regularExpressionEnabled
      · simp only [hre, if_pos]
        exact ⟨hnd, hsub, fun _ => trivial⟩
      · rw [if_neg (by simpa using hre)]
        refine ⟨hnd, hsub, ?_⟩
        intro hcontr
        exact absurd (by simpa using hcontr) hre
  | setRegularExpression b h ih =>
      rename_i s0
      obtain ⟨hnd, hsub, hsync⟩ := ih
      unfold Settings.setRegularExpression Settings.cacheRegExp
      cases b with
      | true =>
          simp only [if_pos]
          exact ⟨hnd, hsub, fun _ => trivial⟩
      | false =>
          rw [if_neg (by simp)]
          refine ⟨hnd, hsub, ?_⟩
          intro hcontr
          simp at hcontr
  | setFilterReplies b h ih =>
      simpa [Settings.setFilterReplies] using ih

/-- Reloading the persisted record of a settings value with
duplicate-free `listedLanguages` and `selectedLanguages ⊆ listedLanguages`
rebuilds it exactly, except that the compiled-pattern cache is rebuilt
in sync. -/
theorem loadFromJSON_toJSON {s : Settings} (hnd : s.listedLanguages.Nodup)
    (hsub : ∀ x ∈ s.selectedLanguages, x ∈ s.listedLanguages)
    (nav : List String) :
    Settings.loadFromJSON (Settings.toJSON s) nav =
      { s with regExp := if s.regularExpressionEnabled
                         then s.blockedWords else [] } := by
  have hil := distinct_eq_self
    (s.listedLanguages.filter (fun x => decide (x ∈ s.selectedLanguages)))
    (hnd.filter _)
  have hsel : (s.listedLanguages.filter
      (fun x => decide (x ∈ s.selectedLanguages))).toFinset =
      s.selectedLanguages := by
    ext x
    simp only [List.mem_toFinset, List.mem_filter, decide_eq_true_eq]
    exact ⟨fun h => h.2, fun h => ⟨hsub x h, h⟩⟩
  have hfilter : (s.listedLanguages.filter
      (fun x => decide (x ∈ s.selectedLanguages))).filter
      (fun v => !(s.listedLanguages.contains v)) = [] := by
    rw [List.filter_eq_nil]
    intro a ha
    rw [List.mem_filter] at ha
    simp [ha.1]
  have hll := distinct_eq_self s.listedLanguages hnd
  simp only [Settings.loadFromJSON, Settings.toJSON, Settings.make,
    Option.getD_some]
  rw [hil, hfilter, hll, hsel]
  simp

/-- C3 (amended): for every reachable settings value, reloading its
persisted record reproduces it exactly except for the compiled-pattern
cache, which is rebuilt in sync — `blockedWords` when regex mode is
enabled, empty otherwise.  In particular the round-trip is deep-equal
whenever regex mode is enabled; a value whose regex mode was switched
off after patterns were cached keeps a stale cache that the reload
drops (see the counterexample). -/
theorem settings_roundtrip_amended (s : Settings) (h : Reachable s)
    (nav : List String) :
    Settings.loadFromJSON (Settings.toJSON s) nav =
      { s with regExp := if s.regularExpressionEnabled
                         then s.blockedWords else [] } ∧
    (s.regularExpressionEnabled = true →
      Settings.loadFromJSON (Settings.toJSON s) nav = s) := by
  obtain ⟨hnd, hsub, hsync⟩ := reachable_inv h
  refine ⟨loadFromJSON_toJSON hnd hsub nav, fun hre => ?_⟩
  have h2 : ({ s with regExp := s.blockedWords } : Settings) =
      { s with regExp := s.regExp } :=
    congrArg (fun z => { s with regExp := z }) (hsync hre).symm
  rw [loadFromJSON_toJSON hnd hsub nav, if_pos hre, h2]

/-- Witness for C3 at a concrete reachable value. -/
theorem settings_roundtrip_amended_witness :
    Settings.loadFromJSON (Settings.toJSON exSettingsBase) [] =
      { exSettingsBase with
        regExp := if exSettingsBase.regularExpressionEnabled
                  then exSettingsBase.blockedWords else [] } ∧
    (exSettingsBase.regularExpressionEnabled = true →
      Settings.loadFromJSON (Settings.toJSON exSettingsBase) [] =
        exSettingsBase) :=
  settings_roundtrip_amended exSettingsBase
    (Reachable.make (some true) (some true) (some true) (some false)
      (some ["en"]) (some false) (some ["en"]) (some 20) (some true)
      (some ["a", "b"]) (some false) (some false) []) []

end YayFilter
